import Mathlib

/-!
# Verification of the climate-query Flask app (`src/app.py`)

Shallow embedding of the query/aggregation core of the app:

* `calc_temps` — the min/avg/max temperature aggregation helper (app.py 16–42);
* the `/api/v1.0/<start>` and `/api/v1.0/<start>/<end>` handlers with their
  regex validation and error messages (app.py 130–174);
* the `/api/v1.0/precipitation` pipeline: latest date, 365-day window,
  fetch, pandas stable sort, `set_index` + `to_dict` (app.py 82–104);
* the `/api/v1.0/stations` distinct query (app.py 106–114);
* the `/api/v1.0/tobs` trailing-window query (app.py 116–128).

The database is modelled as a list of observation rows; the `date` column is a
`String` compared lexicographically (SQLite TEXT comparison, which is also
Python string comparison); `tobs`/`prcp` are nullable numerics modelled as
`Option ℚ`.
-/

namespace ClimateApp

/-! ## Lexicographic string comparison (Python `>` on `str`, SQLite TEXT `>=`) -/

/-- Lexicographic strict comparison of character lists by code point,
as Python compares strings and SQLite compares TEXT values. -/
def listCharLt : List Char → List Char → Bool
  | [], [] => false
  | [], _ :: _ => true
  | _ :: _, [] => false
  | a :: as, b :: bs =>
    if a.toNat < b.toNat then true
    else if b.toNat < a.toNat then false
    else listCharLt as bs

/-- Python `a < b` on strings. -/
def strLt (a b : String) : Bool := listCharLt a.toList b.toList

/-- SQLite `a <= b` on TEXT columns (total order, so `¬ b < a`). -/
def strLe (a b : String) : Bool := !(strLt b a)

/-! ## Data model: one row of the `measurement` table -/

/-- One row of the reflected `measurement` table: station identifier,
date string in `YYYY-MM-DD` form, nullable temperature and precipitation. -/
structure Obs where
  station : String
  date : String
  tobs : Option ℚ
  prcp : Option ℚ
deriving DecidableEq

/-- The database: the full list of measurement rows, in table (fetch) order. -/
abbrev DB := List Obs

/-! ## SQL aggregates `min`, `avg`, `max` over a nullable column

SQL aggregates ignore NULLs and return NULL on an empty (or all-NULL) input. -/

/-- SQL `min` over the non-null values (NULL on empty input). -/
def sqlMin : List ℚ → Option ℚ
  | [] => none
  | x :: xs => some (match sqlMin xs with | none => x | some m => min x m)

/-- SQL `max` over the non-null values (NULL on empty input). -/
def sqlMax : List ℚ → Option ℚ
  | [] => none
  | x :: xs => some (match sqlMax xs with | none => x | some m => max x m)

/-- SQL `avg`: arithmetic mean of the non-null values (NULL on empty input). -/
def sqlAvg (l : List ℚ) : Option ℚ :=
  match l with
  | [] => none
  | _ :: _ => some (l.sum / l.length)

/-- The non-null `tobs` values of the rows satisfying the range filter
`date >= start_date` (and `date <= end_date` when an end date is given),
in table order: the multiset the three SQL aggregates run over. -/
def tobsInRange (db : DB) (start_date : String) (end_date : Option String) : List ℚ :=
  (db.filter (fun r =>
    strLe start_date r.date &&
      match end_date with
      | none => true
      | some e => strLe r.date e)).filterMap (·.tobs)

/-- The helper `calc_temps` (app.py 16–42): one aggregate row
`[(min(tobs), avg(tobs), max(tobs))]` over the date range, collapsed to `[]`
when the row is `[(None, None, None)]`. -/
def calc_temps (db : DB) (start_date : String) (end_date : Option String) :
    List (Option ℚ × Option ℚ × Option ℚ) :=
  let vals := tobsInRange db start_date end_date
  let result := [(sqlMin vals, sqlAvg vals, sqlMax vals)]
  if result = [(none, none, none)] then [] else result

/-! ## Date-format validation (`re.match("^[0-9]{4}-[0-9]{2}-[0-9]{2}", s)`) -/

/-- Embedding of `re.match` of the pattern `^[0-9]{4}-[0-9]{2}-[0-9]{2}` against `s`: the first ten
characters must be four digits, a hyphen, two digits, a hyphen, two digits;
anything after that prefix is tolerated. -/
def matchesDateFormat (s : String) : Bool :=
  match s.toList with
  | y1 :: y2 :: y3 :: y4 :: s1 :: m1 :: m2 :: s2 :: d1 :: d2 :: _ =>
    y1.isDigit && y2.isDigit && y3.isDigit && y4.isDigit && (s1 == '-') &&
    m1.isDigit && m2.isDigit && (s2 == '-') && d1.isDigit && d2.isDigit
  | _ => false

/-! ## Error messages (Python f-strings with backslash line continuation,
which splices the 12-space indentation of the continuation line into the
literal) -/

/-- Format-error message of `calc_temps_start` (app.py 139–140). -/
def startFmtMsg (start : String) : String :=
  "Your search of '" ++ start ++
    "' is not in the correct format.<br/>            Please, search for a start date in the form yyyy-mm-dd (year-month-day)."

/-- No-match message of `calc_temps_start` (app.py 145–146). -/
def startNoMatchMsg (start : String) : String :=
  "Your search of " ++ start ++
    " did not match any records.            Please, search for an earlier date.<br/>"

/-- Format-error message of `calc_temps_start_end` (app.py 160–162). -/
def rangeFmtMsg (start finish : String) : String :=
  "Your search beginning with '" ++ start ++ "' and ending with '" ++ finish ++
    "'            is not in the correct format.<br/>Please, verify that both start and end dates            are in the form yyyy-mm-dd (year-month-day)."

/-- No-match message of `calc_temps_start_end` (app.py 171–172). -/
def rangeNoMatchMsg (start finish : String) : String :=
  "Your search beginning with '" ++ start ++ "' and ending with '" ++ finish ++
    "'            did not match any records.  Please, search for a different date range.<br/>"

/-! ## JSON values and HTTP responses (`flask.jsonify` output shape) -/

/-- The JSON values `jsonify` can produce here. -/
inductive Json where
  | null : Json
  | num : ℚ → Json
  | str : String → Json
  | arr : List Json → Json
  | obj : List (String × Json) → Json

/-- Serialization of a nullable SQL numeric. -/
def jsonOpt : Option ℚ → Json
  | none => Json.null
  | some q => Json.num q

/-- Embedding of `jsonify(result)` for a `calc_temps` result: a JSON list of row-triples
(each SQLAlchemy row tuple serializes as a JSON array). -/
def jsonifyTemps (result : List (Option ℚ × Option ℚ × Option ℚ)) : Json :=
  Json.arr (result.map (fun t => Json.arr [jsonOpt t.1, jsonOpt t.2.1, jsonOpt t.2.2]))

/-- A handler's return value: a plain-text body or a JSON body. -/
inductive Response where
  | text : String → Response
  | json : Json → Response

/-! ## The temperature endpoints -/

/-- The aggregation performed by the `/api/v1.0/<start>/<end>` handler
(app.py 164–168): when `start > end` the arguments are swapped before
calling `calc_temps`. -/
def startEndResult (db : DB) (start finish : String) :
    List (Option ℚ × Option ℚ × Option ℚ) :=
  if strLt finish start then calc_temps db finish (some start)
  else calc_temps db start (some finish)

/-- The `/api/v1.0/<start>` handler (app.py 130–148). -/
def calc_temps_start (db : DB) (start : String) : Response :=
  if !(matchesDateFormat start) then Response.text (startFmtMsg start)
  else
    let result := calc_temps db start none
    if result = [] then Response.text (startNoMatchMsg start)
    else Response.json (jsonifyTemps result)

/-- The `/api/v1.0/<start>/<end>` handler (app.py 150–174). -/
def calc_temps_start_end (db : DB) (start finish : String) : Response :=
  if !(matchesDateFormat start) || !(matchesDateFormat finish) then
    Response.text (rangeFmtMsg start finish)
  else
    let result := startEndResult db start finish
    if result = [] then Response.text (rangeNoMatchMsg start finish)
    else Response.json (jsonifyTemps result)

/-! ## Substring containment (for statements about message content) -/

/-- Predicate `pfxOf n l`: `n` is an initial segment of `l`. -/
def pfxOf : List Char → List Char → Bool
  | [], _ => true
  | _ :: _, [] => false
  | a :: as, b :: bs => (a == b) && pfxOf as bs

/-- Predicate `hasSeg n l`: `n` occurs contiguously somewhere in `l`. -/
def hasSeg (n : List Char) : List Char → Bool
  | [] => pfxOf n []
  | c :: cs => pfxOf n (c :: cs) || hasSeg n cs

/-- Predicate `strContains hay needle`: `needle` occurs contiguously in `hay`. -/
def strContains (hay needle : String) : Bool := hasSeg needle.toList hay.toList

/-! ## Calendar dates (`datetime.strptime`, `timedelta(days=365)`)

Python's `datetime` stores a proleptic-Gregorian day count; subtracting
`timedelta(days=365)` subtracts exactly 365 calendar days. We embed dates as
year/month/day triples with the standard civil-calendar conversions to and
from a day number (days since 0000-03-01). -/

/-- A calendar date. -/
structure Date where
  y : Nat
  m : Nat
  d : Nat
deriving DecidableEq

/-- Day number of a civil date (days since 0000-03-01, March-based year). -/
def dateToOrdinal (dt : Date) : Nat :=
  let y := if dt.m ≤ 2 then dt.y - 1 else dt.y
  let era := y / 400
  let yoe := y % 400
  let mp := (dt.m + 9) % 12
  let doy := (153 * mp + 2) / 5 + dt.d - 1
  let doe := yoe * 365 + yoe / 4 - yoe / 100 + doy
  era * 146097 + doe

/-- Civil date of a day number (inverse of `dateToOrdinal`). -/
def ordinalToDate (n : Nat) : Date :=
  let era := n / 146097
  let doe := n % 146097
  let yoe := (doe - doe / 1460 + doe / 36524 - doe / 146096) / 365
  let doy := doe - (365 * yoe + yoe / 4 - yoe / 100)
  let mp := (5 * doy + 2) / 153
  let dd := doy - (153 * mp + 2) / 5 + 1
  let mm := if mp < 10 then mp + 3 else mp - 9
  let yy := era * 400 + yoe + (if mm ≤ 2 then 1 else 0)
  ⟨yy, mm, dd⟩

/-- Numeric value of a decimal digit character. -/
def digitVal (c : Char) : Nat := c.toNat - 48

/-- Embedding of `datetime.strptime(s, "%Y-%m-%d")`, restricted to the date fields. -/
def parseDate (s : String) : Date :=
  match s.toList with
  | y1 :: y2 :: y3 :: y4 :: _ :: m1 :: m2 :: _ :: d1 :: d2 :: _ =>
    ⟨digitVal y1 * 1000 + digitVal y2 * 100 + digitVal y3 * 10 + digitVal y4,
     digitVal m1 * 10 + digitVal m2,
     digitVal d1 * 10 + digitVal d2⟩
  | _ => ⟨0, 0, 0⟩

/-- Decimal digit character of `n % 10`. -/
def digitChar (n : Nat) : Char := Char.ofNat (48 + n % 10)

/-- Render a date back to its `YYYY-MM-DD` string. -/
def formatDate (dt : Date) : String :=
  String.mk [digitChar (dt.y / 1000), digitChar (dt.y / 100), digitChar (dt.y / 10),
    digitChar dt.y, '-', digitChar (dt.m / 10), digitChar dt.m, '-',
    digitChar (dt.d / 10), digitChar dt.d]

/-- Embedding of `strptime(latest, "%Y-%m-%d") - timedelta(days=365)` (app.py 88, 123):
the date exactly 365 calendar days before the given one. -/
def lastYear (dt : Date) : Date := ordinalToDate (dateToOrdinal dt - 365)

/-! ## The trailing-window queries -/

/-- Embedding of `session.query(func.max(Measurement.date)).scalar()` (app.py 87, 122):
the lexicographically greatest date string in the table, `none` on an empty
table. -/
def maxDateStr (db : DB) : Option String :=
  db.foldr (fun r acc =>
    match acc with
    | none => some r.date
    | some m => some (if strLt m r.date then r.date else m)) none

/-- Embedding of `.filter(Measurement.date >= since).all()` (app.py 91–93, 125–127): the
rows whose date is at least `since`, in table order, no upper bound. -/
def fetchSince (db : DB) (since : String) : List Obs :=
  db.filter (fun r => strLe since r.date)

/-- The window-start date (as a `YYYY-MM-DD` string) computed by
`/api/v1.0/precipitation` and `/api/v1.0/tobs` for a given latest date:
365 calendar days before it. -/
def windowStartStr (latest : String) : String := formatDate (lastYear (parseDate latest))

/-- The actual comparison bound the queries run with: `last_year` is a
`datetime.datetime`, and the sqlite3 driver binds it against the TEXT `date`
column as `"YYYY-MM-DD 00:00:00"`. Under TEXT comparison this excludes rows
dated exactly `windowStartStr latest`, because the bare ten-character date
sorts strictly below its `" 00:00:00"` extension. -/
def windowStartBound (latest : String) : String := windowStartStr latest ++ " 00:00:00"

/-- The `(date, prcp)` pairs fetched by the precipitation endpoint
(app.py 91–93), in table order. -/
def datePrcpRows (db : DB) (since : String) : List (String × Option ℚ) :=
  (fetchSince db since).map (fun r => (r.date, r.prcp))

/-- The `tobs` values fetched by the tobs endpoint (app.py 125–127), in
table order, nulls included. -/
def tobsRows (db : DB) (since : String) : List (Option ℚ) :=
  (fetchSince db since).map (fun r => r.tobs)

/-! ## The pandas steps of the precipitation endpoint

`sort_values("Date")` sorts ascending by date, but its default
`kind='quicksort'` guarantees no particular order among rows with equal
dates; `set_index("Date")` followed by `to_dict()` then yields
`{"Precipitation": {date: prcp, ...}}`, the inner dict built by inserting the
sorted rows in order into a Python dict (a later insert of an existing key
overwrites its value in place). The executable `sortRows` below realizes one
ascending reordering; every property claimed of the series is proved for an
arbitrary ascending reordering of the fetched rows, so nothing depends on
which tie order the quicksort produces. -/

/-- Insert one row into an ascending run (one concrete insertion policy). -/
def insRow (p : String × Option ℚ) : List (String × Option ℚ) → List (String × Option ℚ)
  | [] => [p]
  | q :: qs => if strLe p.1 q.1 then p :: q :: qs else q :: insRow p qs

/-- One ascending reordering by date, standing in for
`prcp_df.sort_values("Date")` (app.py 99), whose tie order is unspecified. -/
def sortRows : List (String × Option ℚ) → List (String × Option ℚ)
  | [] => []
  | p :: ps => insRow p (sortRows ps)

/-- Python `d[k] = v`: overwrite in place if the key exists, else append. -/
def pyInsert (k : String) (v : Option ℚ) :
    List (String × Option ℚ) → List (String × Option ℚ)
  | [] => [(k, v)]
  | (k2, v2) :: rest =>
    if k = k2 then (k2, v) :: rest else (k2, v2) :: pyInsert k v rest

/-- Build a Python dict from a list of key/value pairs inserted in order. -/
def dictOf (l : List (String × Option ℚ)) : List (String × Option ℚ) :=
  l.foldl (fun d p => pyInsert p.1 p.2 d) []

/-- Lookup in an association list (reading a Python dict). -/
def lookupKey (k : String) : List (String × Option ℚ) → Option (Option ℚ)
  | [] => none
  | (k2, v) :: rest => if k = k2 then some v else lookupKey k rest

/-- The inner `date → prcp` dict of the precipitation payload: the fetched
rows, stably sorted by date, inserted in order into a dict. -/
def prcpDict (db : DB) (since : String) : List (String × Option ℚ) :=
  dictOf (sortRows (datePrcpRows db since))

/-- Embedding of `prcp_df.to_dict()` (app.py 104): a dict keyed by the one remaining
column name, `"Precipitation"`, whose value is the date→prcp dict. -/
def precipPayload (db : DB) (since : String) : List (String × List (String × Option ℚ)) :=
  [("Precipitation", prcpDict db since)]

/-- The `/api/v1.0/precipitation` handler (app.py 82–104), as the JSON value
it returns (defined when the table is non-empty, as the repository
guarantees). -/
def precipitation (db : DB) : Option Json :=
  match maxDateStr db with
  | none => none
  | some latest =>
    some (Json.obj [("Precipitation",
      Json.obj ((prcpDict db (windowStartBound latest)).map
        (fun p => (p.1, jsonOpt p.2))))])

/-! ## The stations and tobs endpoints -/

/-- First-occurrence deduplication: `SELECT DISTINCT station` row values in
a deterministic scan order. -/
def dedupFirst : List String → List String
  | [] => []
  | s :: rest => s :: (dedupFirst rest).filter (fun t => t ≠ s)

/-- Embedding of `session.query(Measurement.station).distinct(...)` (app.py 110–112):
the distinct station identifiers of the table. -/
def stationList (db : DB) : List String := dedupFirst (db.map (·.station))

/-- The `/api/v1.0/stations` handler (app.py 106–114): each fetched row is a
one-column tuple, so it serializes as a one-element JSON array. -/
def stationsPayload (db : DB) : Json :=
  Json.arr ((stationList db).map (fun s => Json.arr [Json.str s]))

/-- The `/api/v1.0/tobs` handler (app.py 116–128): each fetched row is a
one-column tuple, so it serializes as a one-element JSON array. -/
def tobsPayload (db : DB) : Option Json :=
  match maxDateStr db with
  | none => none
  | some latest =>
    some (Json.arr ((tobsRows db (windowStartBound latest)).map
      (fun t => Json.arr [jsonOpt t])))

/-- The element list of a JSON array (empty for non-arrays). -/
def jsonElems : Json → List Json
  | Json.arr l => l
  | _ => []

/-- The key list of a JSON object (empty for non-objects). -/
def jsonObjKeys : Json → List String
  | Json.obj l => l.map Prod.fst
  | _ => []

/-! ## Helper lemmas: the lexicographic order -/

theorem listCharLt_irrefl (l : List Char) : listCharLt l l = false := by
  induction l with
  | nil => rfl
  | cons a as ih => simp [listCharLt, ih]

theorem strLe_refl (s : String) : strLe s s = true := by
  simp [strLe, strLt, listCharLt_irrefl]

theorem listCharLt_asymm (a b : List Char) :
    listCharLt a b = true → listCharLt b a = false := by
  induction a generalizing b with
  | nil => intro h; cases b with
    | nil => simp [listCharLt] at h
    | cons c cs => simp [listCharLt]
  | cons x xs ih =>
    intro h
    cases b with
    | nil => simp [listCharLt] at h
    | cons y ys =>
      simp only [listCharLt] at h ⊢
      rcases Nat.lt_trichotomy x.toNat y.toNat with hlt | heq | hgt
      · simp [hlt, Nat.not_lt.mpr (Nat.le_of_lt hlt)]
      · simp [heq, Nat.lt_irrefl] at h ⊢
        exact ih ys h
      · simp [hgt, Nat.not_lt.mpr (Nat.le_of_lt hgt)] at h

theorem listCharLt_conn (a b : List Char) :
    listCharLt a b = false → listCharLt b a = false → a = b := by
  induction a generalizing b with
  | nil => intro h1 _; cases b with
    | nil => rfl
    | cons c cs => simp [listCharLt] at h1
  | cons x xs ih =>
    intro h1 h2
    cases b with
    | nil => simp [listCharLt] at h2
    | cons y ys =>
      simp only [listCharLt] at h1 h2
      rcases Nat.lt_trichotomy x.toNat y.toNat with hlt | heq | hgt
      · simp [hlt] at h1
      · have hx : x = y := Char.eq_of_val_eq (UInt32.ext heq)
        subst hx
        simp [Nat.lt_irrefl] at h1 h2
        exact congrArg (x :: ·) (ih ys h1 h2)
      · simp [hgt, Nat.not_lt.mpr (Nat.le_of_lt hgt)] at h2

theorem listCharLt_trans (a b c : List Char) :
    listCharLt a b = true → listCharLt b c = true → listCharLt a c = true := by
  induction a generalizing b c with
  | nil =>
    intro h1 h2
    cases b with
    | nil => simp [listCharLt] at h1
    | cons y ys =>
      cases c with
      | nil => simp [listCharLt] at h2
      | cons z zs => simp [listCharLt]
  | cons x xs ih =>
    intro h1 h2
    cases b with
    | nil => simp [listCharLt] at h1
    | cons y ys =>
      cases c with
      | nil => simp [listCharLt] at h2
      | cons z zs =>
        simp only [listCharLt] at h1 h2 ⊢
        by_cases hxy : x.toNat < y.toNat
        · by_cases hyz : y.toNat < z.toNat
          · have hxz : x.toNat < z.toNat := Nat.lt_trans hxy hyz
            simp [hxz]
          · by_cases hzy : z.toNat < y.toNat
            · simp [hyz, hzy] at h2
            · have hxz : x.toNat < z.toNat := by omega
              simp [hxz]
        · by_cases hyx : y.toNat < x.toNat
          · simp [hxy, hyx] at h1
          · by_cases hyz : y.toNat < z.toNat
            · have hxz : x.toNat < z.toNat := by omega
              simp [hxz]
            · by_cases hzy : z.toNat < y.toNat
              · simp [hyz, hzy] at h2
              · have hxz : ¬ x.toNat < z.toNat := by omega
                have hzx : ¬ z.toNat < x.toNat := by omega
                simp [hxy, hyx] at h1
                simp [hyz, hzy] at h2
                simp [hxz, hzx]
                exact ih ys zs h1 h2

theorem strLe_trans (a b c : String) :
    strLe a b = true → strLe b c = true → strLe a c = true := by
  simp only [strLe, strLt, Bool.not_eq_true']
  intro h1 h2
  cases hca : listCharLt c.toList a.toList with
  | false => rfl
  | true =>
    exfalso
    cases hbc : listCharLt b.toList c.toList with
    | true =>
      have hba := listCharLt_trans _ _ _ hbc hca
      rw [h1] at hba
      exact Bool.false_ne_true hba
    | false =>
      have hbceq : b.toList = c.toList := listCharLt_conn _ _ hbc h2
      rw [← hbceq] at hca
      rw [h1] at hca
      exact Bool.false_ne_true hca

theorem strLe_total (a b : String) : strLe a b = true ∨ strLe b a = true := by
  simp only [strLe, strLt, Bool.not_eq_true']
  cases h : listCharLt b.toList a.toList with
  | false => exact Or.inl rfl
  | true => exact Or.inr (listCharLt_asymm _ _ h)

theorem strLt_asymm (a b : String) : strLt a b = true → strLt b a = false :=
  fun h => listCharLt_asymm _ _ h

theorem strings_eq_of_toList_eq (a b : String) : a.toList = b.toList → a = b := by
  intro h
  cases a with | mk da =>
  cases b with | mk db =>
  exact congrArg String.mk h

theorem strLe_antisymm (a b : String) :
    strLe a b = true → strLe b a = true → a = b := by
  simp only [strLe, strLt, Bool.not_eq_true']
  intro h1 h2
  exact strings_eq_of_toList_eq a b (listCharLt_conn _ _ h2 h1)

/-! ## Helper lemmas: substring containment -/

theorem toList_append (a b : String) : (a ++ b).toList = a.toList ++ b.toList := rfl

theorem pfxOf_append (l t : List Char) : pfxOf l (l ++ t) = true := by
  induction l with
  | nil => rfl
  | cons a as ih => simp [pfxOf, ih]

theorem hasSeg_of_append (x n y : List Char) : hasSeg n (x ++ n ++ y) = true := by
  induction x with
  | nil =>
    cases n with
    | nil => cases y with
      | nil => rfl
      | cons c cs => simp [hasSeg, pfxOf]
    | cons a as =>
      simp only [List.nil_append, hasSeg]
      have := pfxOf_append (a :: as) y
      simp only [List.cons_append] at this ⊢
      simp [this]
  | cons c cs ih =>
    cases n with
    | nil => simp [hasSeg, pfxOf]
    | cons a as =>
      simp only [List.cons_append, hasSeg, Bool.or_eq_true]
      refine Or.inr ?_
      simpa [List.append_assoc] using ih

/-- A string occurs in any string built around it by concatenation. -/
theorem strContains_around (x s y : String) : strContains (x ++ s ++ y) s = true := by
  simp only [strContains, toList_append]
  exact hasSeg_of_append x.toList s.toList y.toList

theorem pfxOf_ext (n l t : List Char) : pfxOf n l = true → pfxOf n (l ++ t) = true := by
  induction n generalizing l with
  | nil => intro _; rfl
  | cons a as ih =>
    intro h
    cases l with
    | nil => simp [pfxOf] at h
    | cons b bs =>
      simp only [pfxOf, Bool.and_eq_true] at h ⊢
      exact ⟨h.1, ih bs h.2⟩

theorem hasSeg_ext_right (n l t : List Char) :
    hasSeg n l = true → hasSeg n (l ++ t) = true := by
  induction l with
  | nil =>
    intro h
    cases n with
    | nil => cases t with
      | nil => rfl
      | cons c cs => simp [hasSeg, pfxOf]
    | cons a as => simp [hasSeg, pfxOf] at h
  | cons c cs ih =>
    intro h
    simp only [hasSeg, Bool.or_eq_true] at h ⊢
    rcases h with h | h
    · exact Or.inl (by
        have := pfxOf_ext n (c :: cs) t h
        simpa using this)
    · exact Or.inr (ih h)

theorem hasSeg_ext_left (n t x : List Char) :
    hasSeg n t = true → hasSeg n (x ++ t) = true := by
  induction x with
  | nil => exact fun h => h
  | cons c cs ih =>
    intro h
    simp only [List.cons_append, hasSeg, Bool.or_eq_true]
    exact Or.inr (ih h)

theorem strContains_append_right (t x n : String) :
    strContains t n = true → strContains (t ++ x) n = true := by
  simp only [strContains, toList_append]
  exact hasSeg_ext_right n.toList t.toList x.toList

theorem strContains_append_left (t x n : String) :
    strContains t n = true → strContains (x ++ t) n = true := by
  simp only [strContains, toList_append]
  exact hasSeg_ext_left n.toList t.toList x.toList

theorem strContains_self_suffix (x s : String) : strContains (x ++ s) s = true := by
  have h := hasSeg_of_append x.toList s.toList []
  rw [List.append_nil] at h
  simpa [strContains, toList_append] using h

/-! ## Helper lemmas: queries as filters -/

theorem dedupFirst_nodup (l : List String) : (dedupFirst l).Nodup := by
  induction l with
  | nil => exact List.nodup_nil
  | cons a as ih =>
    simp only [dedupFirst, List.nodup_cons]
    constructor
    · intro hmem
      rcases List.mem_filter.mp hmem with ⟨_, hne⟩
      simp at hne
    · exact List.Nodup.filter _ ih

theorem mem_dedupFirst (s : String) (l : List String) : s ∈ dedupFirst l ↔ s ∈ l := by
  induction l with
  | nil => simp [dedupFirst]
  | cons a as ih =>
    simp only [dedupFirst, List.mem_cons, List.mem_filter, ne_eq, decide_not]
    constructor
    · rintro (h | ⟨h, _⟩)
      · exact Or.inl h
      · exact Or.inr (ih.mp h)
    · rintro (h | h)
      · exact Or.inl h
      · by_cases hs : s = a
        · exact Or.inl hs
        · exact Or.inr ⟨ih.mpr h, by simp [hs]⟩

/-! ## Helper lemmas: the SQL aggregates -/

theorem sqlMin_eq_none_iff (l : List ℚ) : sqlMin l = none ↔ l = [] := by
  cases l <;> simp [sqlMin]

theorem sqlMax_eq_none_iff (l : List ℚ) : sqlMax l = none ↔ l = [] := by
  cases l <;> simp [sqlMax]

theorem sqlAvg_eq_none_iff (l : List ℚ) : sqlAvg l = none ↔ l = [] := by
  cases l <;> simp [sqlAvg]

theorem sqlMin_le (l : List ℚ) (m : ℚ) (h : sqlMin l = some m) :
    ∀ x ∈ l, m ≤ x := by
  induction l generalizing m with
  | nil => simp [sqlMin] at h
  | cons a as ih =>
    simp only [sqlMin] at h
    injection h with h
    intro x hx
    rcases List.mem_cons.mp hx with rfl | hx
    · cases has : sqlMin as with
      | none => rw [has] at h; simp at h; exact le_of_eq h.symm
      | some mas => rw [has] at h; simp at h; rw [← h]; exact min_le_left _ _
    · cases has : sqlMin as with
      | none =>
        rw [sqlMin_eq_none_iff] at has
        subst has
        simp at hx
      | some mas =>
        rw [has] at h
        simp at h
        calc m = min a mas := h.symm
          _ ≤ mas := min_le_right a mas
          _ ≤ x := ih mas has x hx

theorem sqlMin_mem (l : List ℚ) (m : ℚ) (h : sqlMin l = some m) : m ∈ l := by
  induction l generalizing m with
  | nil => simp [sqlMin] at h
  | cons a as ih =>
    simp only [sqlMin] at h
    injection h with h
    cases has : sqlMin as with
    | none => rw [has] at h; simp at h; simp [← h]
    | some mas =>
      rw [has] at h
      simp at h
      rcases min_choice a mas with hc | hc <;> rw [← h, hc]
      · simp
      · exact List.mem_cons_of_mem a (ih mas has)

theorem le_sqlMax (l : List ℚ) (x : ℚ) (h : sqlMax l = some x) :
    ∀ v ∈ l, v ≤ x := by
  induction l generalizing x with
  | nil => simp [sqlMax] at h
  | cons a as ih =>
    simp only [sqlMax] at h
    injection h with h
    intro v hv
    rcases List.mem_cons.mp hv with rfl | hv
    · cases has : sqlMax as with
      | none => rw [has] at h; simp at h; exact le_of_eq h
      | some mas => rw [has] at h; simp at h; rw [← h]; exact le_max_left _ _
    · cases has : sqlMax as with
      | none =>
        rw [sqlMax_eq_none_iff] at has
        subst has
        simp at hv
      | some mas =>
        rw [has] at h
        simp at h
        calc v ≤ mas := ih mas has v hv
          _ ≤ max a mas := le_max_right a mas
          _ = x := h

theorem sqlMax_mem (l : List ℚ) (x : ℚ) (h : sqlMax l = some x) : x ∈ l := by
  induction l generalizing x with
  | nil => simp [sqlMax] at h
  | cons a as ih =>
    simp only [sqlMax] at h
    injection h with h
    cases has : sqlMax as with
    | none => rw [has] at h; simp at h; simp [← h]
    | some mas =>
      rw [has] at h
      simp at h
      rcases max_choice a mas with hc | hc <;> rw [← h, hc]
      · simp
      · exact List.mem_cons_of_mem a (ih mas has)

/-- The full statistics of `calc_temps` on a range with at least one
non-null temperature: one row of attained, correctly ordered aggregates,
whose middle entry is the arithmetic mean. -/
theorem calc_temps_stats (db : DB) (s : String) (e : Option String)
    (h : tobsInRange db s e ≠ []) :
    ∃ m a x : ℚ,
      calc_temps db s e = [(some m, some a, some x)] ∧
      m ≤ a ∧ a ≤ x ∧
      a = (tobsInRange db s e).sum / (tobsInRange db s e).length ∧
      m ∈ tobsInRange db s e ∧ x ∈ tobsInRange db s e ∧
      (∀ v ∈ tobsInRange db s e, m ≤ v ∧ v ≤ x) := by
  set vals := tobsInRange db s e with hvals
  cases hm : sqlMin vals with
  | none => exact absurd ((sqlMin_eq_none_iff vals).mp hm) h
  | some m =>
  cases hx : sqlMax vals with
  | none => exact absurd ((sqlMax_eq_none_iff vals).mp hx) h
  | some x =>
  have hlen : 0 < (vals.length : ℚ) := by
    have : 0 < vals.length := List.length_pos.mpr h
    exact_mod_cast this
  have havg : sqlAvg vals = some (vals.sum / vals.length) := by
    cases hv : vals with
    | nil => exact absurd hv h
    | cons a as => simp [sqlAvg, ← hv]
  refine ⟨m, vals.sum / vals.length, x, ?_, ?_, ?_, rfl, sqlMin_mem vals m hm,
    sqlMax_mem vals x hx, fun v hv => ⟨sqlMin_le vals m hm v hv, le_sqlMax vals x hx v hv⟩⟩
  · rw [calc_temps]
    simp only [← hvals, hm, hx, havg]
    rw [if_neg (by simp)]
  · rw [le_div_iff₀ hlen]
    have hsum : vals.length • m ≤ vals.sum :=
      List.card_nsmul_le_sum _ _ (sqlMin_le vals m hm)
    rw [nsmul_eq_mul] at hsum
    linarith
  · rw [div_le_iff₀ hlen]
    have hsum : vals.sum ≤ vals.length • x :=
      List.sum_le_card_nsmul vals x (le_sqlMax vals x hx)
    rw [nsmul_eq_mul] at hsum
    linarith

/-- The helper `calc_temps` collapses to the empty list exactly when no row in range has
a non-null temperature. -/
theorem calc_temps_empty_iff (db : DB) (s : String) (e : Option String) :
    calc_temps db s e = [] ↔ tobsInRange db s e = [] := by
  constructor
  · intro h
    by_contra hne
    obtain ⟨m, a, x, heq, _⟩ := calc_temps_stats db s e hne
    rw [heq] at h
    exact List.cons_ne_nil _ _ h
  · intro h
    rw [calc_temps]
    simp [h, sqlMin, sqlMax, sqlAvg]

/-! ## Helper lemmas: the civil-calendar conversions are mutually inverse -/

set_option maxHeartbeats 8000000 in
theorem yoe_facts (doe : Nat) (h : doe < 146097) :
    (doe - doe / 1460 + doe / 36524 - doe / 146096) / 365 ≤ 399 ∧
    365 * ((doe - doe / 1460 + doe / 36524 - doe / 146096) / 365) +
      ((doe - doe / 1460 + doe / 36524 - doe / 146096) / 365) / 4 -
      ((doe - doe / 1460 + doe / 36524 - doe / 146096) / 365) / 100 ≤ doe ∧
    doe - (365 * ((doe - doe / 1460 + doe / 36524 - doe / 146096) / 365) +
      ((doe - doe / 1460 + doe / 36524 - doe / 146096) / 365) / 4 -
      ((doe - doe / 1460 + doe / 36524 - doe / 146096) / 365) / 100) ≤ 365 := by
  have hq : doe / 1460 ≤ 100 := by omega
  set q := doe / 1460 with hqdef
  interval_cases q <;>
    first
    | omega
    | (have he : doe / 36524 ≤ 4 := by omega
       set e := doe / 36524 with hedef
       interval_cases e <;> omega)

/-- The function `dateToOrdinal` is a left inverse of `ordinalToDate`. -/
theorem ord_roundtrip (n : Nat) : dateToOrdinal (ordinalToDate n) = n := by
  have hdoe : n % 146097 < 146097 := Nat.mod_lt _ (by omega)
  obtain ⟨hy1, hy2, hy3⟩ := yoe_facts (n % 146097) hdoe
  simp only [ordinalToDate, dateToOrdinal]
  set doe := n % 146097 with hdoedef
  set yoe := (doe - doe / 1460 + doe / 36524 - doe / 146096) / 365 with hyoedef
  set doy := doe - (365 * yoe + yoe / 4 - yoe / 100) with hdoydef
  set mp := (5 * doy + 2) / 153 with hmpdef
  have hmp11 : mp ≤ 11 := by omega
  have hmp5 : (153 * mp + 2) / 5 ≤ doy := by omega
  rcases Nat.lt_or_ge mp 10 with hmp | hmp
  · simp only [if_pos hmp]
    have hmm : ¬ (mp + 3 ≤ 2) := by omega
    simp only [if_neg hmm]
    have hmod : (mp + 3 + 9) % 12 = mp := by omega
    rw [hmod]
    have hera : (n / 146097 * 400 + yoe + 0) / 400 = n / 146097 := by omega
    have hyoe' : (n / 146097 * 400 + yoe + 0) % 400 = yoe := by omega
    rw [hera, hyoe']
    omega
  · simp only [if_neg (by omega : ¬ mp < 10)]
    have hmm : mp - 9 ≤ 2 := by omega
    simp only [if_pos hmm]
    have hmod : (mp - 9 + 9) % 12 = mp := by omega
    rw [hmod]
    have hera : (n / 146097 * 400 + yoe + 1 - 1) / 400 = n / 146097 := by omega
    have hyoe' : (n / 146097 * 400 + yoe + 1 - 1) % 400 = yoe := by omega
    rw [hera, hyoe']
    omega

/-! ## Helper lemmas: the stable sort of the precipitation rows -/

theorem mem_insRow (a p : String × Option ℚ) (l : List (String × Option ℚ)) :
    a ∈ insRow p l ↔ a = p ∨ a ∈ l := by
  induction l with
  | nil => simp [insRow]
  | cons q qs ih =>
    by_cases hle : strLe p.1 q.1 = true
    · simp [insRow, hle]
    · simp only [insRow, if_neg hle, List.mem_cons, ih]
      tauto

theorem insRow_pairwise (p : String × Option ℚ) (l : List (String × Option ℚ))
    (hl : List.Pairwise (fun u v => strLe u.1 v.1 = true) l) :
    List.Pairwise (fun u v => strLe u.1 v.1 = true) (insRow p l) := by
  induction l with
  | nil => simp [insRow]
  | cons q qs ih =>
    rcases List.pairwise_cons.mp hl with ⟨hq, hqs⟩
    by_cases hle : strLe p.1 q.1 = true
    · rw [insRow, if_pos hle]
      refine List.pairwise_cons.mpr ⟨?_, hl⟩
      intro r hr
      rcases List.mem_cons.mp hr with rfl | hr
      · exact hle
      · exact strLe_trans _ _ _ hle (hq r hr)
    · rw [insRow, if_neg hle]
      refine List.pairwise_cons.mpr ⟨?_, ih hqs⟩
      intro r hr
      rcases (mem_insRow r p qs).mp hr with rfl | hr
      · rcases strLe_total r.1 q.1 with h | h
        · exact absurd h hle
        · exact h
      · exact hq r hr

theorem sortRows_pairwise (l : List (String × Option ℚ)) :
    List.Pairwise (fun u v => strLe u.1 v.1 = true) (sortRows l) := by
  induction l with
  | nil => exact List.Pairwise.nil
  | cons p ps ih => exact insRow_pairwise p (sortRows ps) ih

theorem mem_sortRows (a : String × Option ℚ) (l : List (String × Option ℚ)) :
    a ∈ sortRows l ↔ a ∈ l := by
  induction l with
  | nil => simp [sortRows]
  | cons p ps ih =>
    rw [sortRows, mem_insRow, ih, List.mem_cons]

theorem insRow_perm (p : String × Option ℚ) (l : List (String × Option ℚ)) :
    (insRow p l).Perm (p :: l) := by
  induction l with
  | nil => exact List.Perm.refl _
  | cons q qs ih =>
    by_cases hle : strLe p.1 q.1 = true
    · rw [insRow, if_pos hle]
    · rw [insRow, if_neg hle]
      exact (ih.cons q).trans (List.Perm.swap p q qs)

/-- The sort is a permutation of its input. -/
theorem sortRows_perm (l : List (String × Option ℚ)) : (sortRows l).Perm l := by
  induction l with
  | nil => exact List.Perm.refl _
  | cons p ps ih =>
    rw [sortRows]
    exact (insRow_perm p (sortRows ps)).trans (ih.cons p)

/-! ## Helper lemmas: the Python dict built from the sorted rows -/

theorem keys_pyInsert_sub (k : String) (v : Option ℚ) (d : List (String × Option ℚ)) :
    List.Sublist ((pyInsert k v d).map Prod.fst) (d.map Prod.fst ++ [k]) := by
  induction d with
  | nil => simp [pyInsert]
  | cons q rest ih =>
    by_cases hk : k = q.1
    · rw [show (q :: rest : List (String × Option ℚ)) = (q.1, q.2) :: rest from by simp,
        pyInsert, if_pos hk]
      simp only [List.map_cons, List.cons_append]
      exact List.Sublist.cons₂ _ (List.sublist_append_left _ _)
    · rw [show (q :: rest : List (String × Option ℚ)) = (q.1, q.2) :: rest from by simp,
        pyInsert, if_neg hk]
      simp only [List.map_cons, List.cons_append]
      exact List.Sublist.cons₂ _ ih

theorem mem_keys_pyInsert (k' k : String) (v : Option ℚ) (d : List (String × Option ℚ)) :
    k' ∈ (pyInsert k v d).map Prod.fst ↔ k' ∈ d.map Prod.fst ∨ k' = k := by
  induction d with
  | nil => simp [pyInsert]
  | cons q rest ih =>
    by_cases hk : k = q.1
    · rw [show (q :: rest : List (String × Option ℚ)) = (q.1, q.2) :: rest from by simp,
        pyInsert, if_pos hk]
      simp only [List.map_cons, List.mem_cons]
      subst hk
      tauto
    · rw [show (q :: rest : List (String × Option ℚ)) = (q.1, q.2) :: rest from by simp,
        pyInsert, if_neg hk]
      simp only [List.map_cons, List.mem_cons, ih]
      tauto

theorem nodup_keys_pyInsert (k : String) (v : Option ℚ) (d : List (String × Option ℚ))
    (hd : (d.map Prod.fst).Nodup) : ((pyInsert k v d).map Prod.fst).Nodup := by
  induction d with
  | nil => simp [pyInsert]
  | cons q rest ih =>
    simp only [List.map_cons, List.nodup_cons] at hd
    by_cases hk : k = q.1
    · rw [show (q :: rest : List (String × Option ℚ)) = (q.1, q.2) :: rest from by simp,
        pyInsert, if_pos hk]
      simp only [List.map_cons, List.nodup_cons]
      exact hd
    · rw [show (q :: rest : List (String × Option ℚ)) = (q.1, q.2) :: rest from by simp,
        pyInsert, if_neg hk]
      simp only [List.map_cons, List.nodup_cons]
      refine ⟨?_, ih hd.2⟩
      rw [mem_keys_pyInsert]
      rintro (h | h)
      · exact hd.1 h
      · exact hk h.symm

theorem lookup_pyInsert_self (k : String) (v : Option ℚ) (d : List (String × Option ℚ)) :
    lookupKey k (pyInsert k v d) = some v := by
  induction d with
  | nil => simp [pyInsert, lookupKey]
  | cons q rest ih =>
    by_cases hk : k = q.1
    · rw [show (q :: rest : List (String × Option ℚ)) = (q.1, q.2) :: rest from by simp,
        pyInsert, if_pos hk, lookupKey, if_pos hk]
    · rw [show (q :: rest : List (String × Option ℚ)) = (q.1, q.2) :: rest from by simp,
        pyInsert, if_neg hk, lookupKey, if_neg hk]
      exact ih

theorem lookup_pyInsert_ne (k' k : String) (v : Option ℚ) (d : List (String × Option ℚ))
    (hne : k' ≠ k) : lookupKey k' (pyInsert k v d) = lookupKey k' d := by
  induction d with
  | nil => simp [pyInsert, lookupKey, hne]
  | cons q rest ih =>
    by_cases hk : k = q.1
    · rw [show (q :: rest : List (String × Option ℚ)) = (q.1, q.2) :: rest from by simp,
        pyInsert, if_pos hk]
      by_cases hk' : k' = q.1
      · exact absurd (hk'.trans hk.symm) hne
      · rw [lookupKey, if_neg hk', lookupKey, if_neg hk']
    · rw [show (q :: rest : List (String × Option ℚ)) = (q.1, q.2) :: rest from by simp,
        pyInsert, if_neg hk]
      by_cases hk' : k' = q.1
      · rw [lookupKey, if_pos hk', lookupKey, if_pos hk']
      · rw [lookupKey, if_neg hk', lookupKey, if_neg hk']
        exact ih

theorem lookup_dictFold (l : List (String × Option ℚ)) (d : List (String × Option ℚ))
    (k : String) :
    lookupKey k (l.foldl (fun d p => pyInsert p.1 p.2 d) d) =
      match (l.filter (fun q => q.1 = k)).getLast? with
      | some p => some p.2
      | none => lookupKey k d := by
  induction l generalizing d with
  | nil => rfl
  | cons p rest ih =>
    rw [List.foldl_cons, ih]
    by_cases hp : p.1 = k
    · rw [List.filter_cons, if_pos (by simp [hp])]
      cases hfr : rest.filter (fun q => q.1 = k) with
      | nil =>
        simp only [List.getLast?_singleton, List.getLast?_nil]
        rw [← hp, lookup_pyInsert_self]
      | cons q qs =>
        rw [List.getLast?_cons_cons]
        cases hql : (q :: qs).getLast? with
        | none =>
          exfalso
          rw [List.getLast?_eq_none_iff] at hql
          exact List.cons_ne_nil q qs hql
        | some w => rfl
    · rw [List.filter_cons, if_neg (by simp [hp])]
      cases hfr : rest.filter (fun q => q.1 = k) with
      | nil =>
        simp only [List.getLast?_nil]
        exact lookup_pyInsert_ne k p.1 p.2 d (fun h => hp h.symm)
      | cons q qs => rfl

theorem keys_dictFold_sub (l : List (String × Option ℚ)) (d : List (String × Option ℚ)) :
    List.Sublist ((l.foldl (fun d p => pyInsert p.1 p.2 d) d).map Prod.fst)
      (d.map Prod.fst ++ l.map Prod.fst) := by
  induction l generalizing d with
  | nil => simp
  | cons p rest ih =>
    rw [List.foldl_cons]
    refine (ih (pyInsert p.1 p.2 d)).trans ?_
    have h1 := keys_pyInsert_sub p.1 p.2 d
    have h2 := h1.append_right (rest.map Prod.fst)
    rw [List.append_assoc] at h2
    simpa using h2

theorem nodup_keys_dictFold (l : List (String × Option ℚ)) (d : List (String × Option ℚ))
    (hd : (d.map Prod.fst).Nodup) :
    ((l.foldl (fun d p => pyInsert p.1 p.2 d) d).map Prod.fst).Nodup := by
  induction l generalizing d with
  | nil => exact hd
  | cons p rest ih =>
    rw [List.foldl_cons]
    exact ih _ (nodup_keys_pyInsert p.1 p.2 d hd)

theorem mem_keys_dictFold (k : String) (l : List (String × Option ℚ))
    (d : List (String × Option ℚ)) :
    k ∈ (l.foldl (fun d p => pyInsert p.1 p.2 d) d).map Prod.fst ↔
      k ∈ d.map Prod.fst ∨ k ∈ l.map Prod.fst := by
  induction l generalizing d with
  | nil => simp
  | cons p rest ih =>
    rw [List.foldl_cons, ih, mem_keys_pyInsert]
    simp only [List.map_cons, List.mem_cons]
    tauto

theorem mem_of_getLast? {α : Type} {l : List α} {a : α} (h : l.getLast? = some a) :
    a ∈ l := by
  induction l with
  | nil => simp at h
  | cons b bs ih =>
    cases bs with
    | nil =>
      simp only [List.getLast?_singleton, Option.some.injEq] at h
      simp [h]
    | cons c cs =>
      rw [List.getLast?_cons_cons] at h
      exact List.mem_cons_of_mem b (ih h)

theorem strLt_of_le_ne (a b : String) (hle : strLe a b = true) (hne : a ≠ b) :
    strLt a b = true := by
  cases hab : strLt a b with
  | true => rfl
  | false =>
    exfalso
    simp only [strLe, strLt, Bool.not_eq_true'] at hle
    simp only [strLt] at hab
    exact hne (strings_eq_of_toList_eq a b (listCharLt_conn _ _ hab hle))

/-! ## Claim theorems -/

/-- C2: date validation accepts a string exactly when its prefix is four
digits, hyphen, two digits, hyphen, two digits (trailing characters
tolerated); on failure the handlers return the validation-error text, which
names the offending value(s) and the expected `yyyy-mm-dd` format. -/
theorem date_validation_prefix_and_messages :
    (∀ s : String,
      matchesDateFormat s = true ↔
        ∃ (y1 y2 y3 y4 m1 m2 d1 d2 : Char) (rest : List Char),
          s.toList = y1 :: y2 :: y3 :: y4 :: '-' :: m1 :: m2 :: '-' :: d1 :: d2 :: rest ∧
          y1.isDigit = true ∧ y2.isDigit = true ∧ y3.isDigit = true ∧ y4.isDigit = true ∧
          m1.isDigit = true ∧ m2.isDigit = true ∧ d1.isDigit = true ∧ d2.isDigit = true) ∧
    (∀ (db : DB) (start : String), matchesDateFormat start = false →
      calc_temps_start db start = Response.text (startFmtMsg start) ∧
      strContains (startFmtMsg start) start = true ∧
      strContains (startFmtMsg start) "yyyy-mm-dd" = true) ∧
    (∀ (db : DB) (start finish : String),
      matchesDateFormat start = false ∨ matchesDateFormat finish = false →
      calc_temps_start_end db start finish = Response.text (rangeFmtMsg start finish) ∧
      strContains (rangeFmtMsg start finish) start = true ∧
      strContains (rangeFmtMsg start finish) finish = true ∧
      strContains (rangeFmtMsg start finish) "yyyy-mm-dd" = true) := by
  refine ⟨?_, ?_, ?_⟩
  · intro s
    constructor
    · intro h
      unfold matchesDateFormat at h
      split at h
      · rename_i y1 y2 y3 y4 s1 m1 m2 s2 d1 d2 rest heq
        simp only [Bool.and_eq_true, beq_iff_eq] at h
        obtain ⟨⟨⟨⟨⟨⟨⟨⟨⟨h1, h2⟩, h3⟩, h4⟩, h5⟩, h6⟩, h7⟩, h8⟩, h9⟩, h10⟩ := h
        subst h5; subst h8
        exact ⟨y1, y2, y3, y4, m1, m2, d1, d2, rest, heq, h1, h2, h3, h4, h6, h7, h9, h10⟩
      · exact absurd h (by simp)
    · rintro ⟨y1, y2, y3, y4, m1, m2, d1, d2, rest, hl, h1, h2, h3, h4, h5, h6, h7, h8⟩
      unfold matchesDateFormat
      rw [hl]
      simp [h1, h2, h3, h4, h5, h6, h7, h8]
  · intro db start h
    refine ⟨by simp [calc_temps_start, h], ?_, ?_⟩
    · exact strContains_append_right _ _ _ (strContains_self_suffix _ _)
    · exact strContains_append_left _ _ _ (by decide)
  · intro db start finish h
    have hif : (!matchesDateFormat start || !matchesDateFormat finish) = true := by
      rcases h with h | h <;> simp [h]
    refine ⟨by simp [calc_temps_start_end, hif], ?_, ?_, ?_⟩
    · exact strContains_append_right _ _ _ (strContains_append_right _ _ _
        (strContains_append_right _ _ _ (strContains_self_suffix _ _)))
    · exact strContains_append_right _ _ _ (strContains_self_suffix _ _)
    · exact strContains_append_left _ _ _ (by decide)

/-- Witness for C2: the concrete malformed input `"bad"` is rejected by both
handlers with messages naming it and the expected format. -/
theorem date_validation_prefix_and_messages_witness :
    calc_temps_start [] "bad" = Response.text (startFmtMsg "bad") ∧
    strContains (startFmtMsg "bad") "bad" = true ∧
    strContains (startFmtMsg "bad") "yyyy-mm-dd" = true :=
  date_validation_prefix_and_messages.2.1 [] "bad" (by decide)

/-- C3: for valid date strings `a > b` (lexicographically), the
`/api/v1.0/<start>/<end>` handler swaps the pair before aggregation, so it
aggregates over `{start := b, end := a}` and the reversed query computes the
same result as the ascending one. -/
theorem reversed_range_equivalent (db : DB) (a b : String)
    (ha : matchesDateFormat a = true) (hb : matchesDateFormat b = true)
    (hab : strLt b a = true) :
    startEndResult db a b = calc_temps db b (some a) ∧
    startEndResult db a b = startEndResult db b a := by
  have hba : strLt a b = false := strLt_asymm b a hab
  refine ⟨by simp [startEndResult, hab], ?_⟩
  simp [startEndResult, hab, hba]

/-- Witness for C3 at `a = "2010-01-03"`, `b = "2010-01-01"` over a one-row
dataset lying between them. -/
theorem reversed_range_equivalent_witness :
    startEndResult [⟨"S", "2010-01-02", some 5, none⟩] "2010-01-03" "2010-01-01" =
      startEndResult [⟨"S", "2010-01-02", some 5, none⟩] "2010-01-01" "2010-01-03" :=
  (reversed_range_equivalent [⟨"S", "2010-01-02", some 5, none⟩] "2010-01-03" "2010-01-01"
    (by decide) (by decide) (by decide)).2

/-- C5 (code-bug evidence): the trailing-window fetch is not inclusive at the
window start. With latest `2017-08-23` the window start is `2016-08-23`, but
the query's bound binds as `"2016-08-23 00:00:00"`, and the row dated exactly
`2016-08-23` — which satisfies `date ≥ windowStart` (third conjunct) — is
dropped from the fetched rows, contrary to the code's `>=` and the spec's
stated inclusivity. -/
theorem fetch_window_boundary_excluded :
    windowStartStr "2017-08-23" = "2016-08-23" ∧
    windowStartBound "2017-08-23" = "2016-08-23 00:00:00" ∧
    strLe "2016-08-23" "2016-08-23" = true ∧
    fetchSince [⟨"S", "2016-08-23", some 5, some 1⟩, ⟨"S", "2017-08-23", some 7, some 2⟩]
        (windowStartBound "2017-08-23") =
      [⟨"S", "2017-08-23", some 7, some 2⟩] := by
  refine ⟨by decide, by decide, by decide, by decide⟩

/-- C6: the trailing window start is the latest date minus exactly 365
calendar days: its day number is the latest date's day number minus 365, and
on the spec's example the full string pipeline maps `2017-08-23` to
`2016-08-23`. -/
theorem window_start_is_latest_minus_365_days :
    (∀ dt : Date, dateToOrdinal (lastYear dt) = dateToOrdinal dt - 365) ∧
    lastYear ⟨2017, 8, 23⟩ = ⟨2016, 8, 23⟩ ∧
    windowStartStr "2017-08-23" = "2016-08-23" := by
  refine ⟨fun dt => ord_roundtrip _, by decide, by decide⟩

/-- C8 (code-bug evidence): the recent-observations query does not return the
`tobs` of every row with `date ≥ windowStart`. With latest `2017-08-23`, the
row dated exactly at the window start `2016-08-23` (second conjunct: its date
satisfies `date ≥ windowStart`) contributes nothing, because the bound binds
as `"2016-08-23 00:00:00"`: the output is `[null, 7]` — the strictly-later
rows' tobs in fetch order, nulls unfiltered — with the boundary row's `5`
missing. -/
theorem tobs_boundary_excluded :
    windowStartStr "2017-08-23" = "2016-08-23" ∧
    strLe (windowStartStr "2017-08-23") "2016-08-23" = true ∧
    tobsRows [⟨"S", "2016-08-23", some 5, none⟩, ⟨"S", "2016-09-01", none, none⟩,
        ⟨"S", "2017-08-23", some 7, none⟩]
      (windowStartBound "2017-08-23") = [none, some 7] := by
  refine ⟨by decide, by decide, by decide⟩

/-- C9: the stations query yields exactly one entry per distinct station
identifier of the dataset, and identical datasets give identical results. -/
theorem stations_distinct_deterministic (db : DB) :
    (stationList db).Nodup ∧
    (∀ s : String, s ∈ stationList db ↔ ∃ r ∈ db, r.station = s) ∧
    (∀ db2 : DB, db = db2 → stationList db = stationList db2) := by
  refine ⟨dedupFirst_nodup _, ?_, ?_⟩
  · intro s
    rw [stationList, mem_dedupFirst]
    constructor
    · intro h
      rcases List.mem_map.mp h with ⟨r, hr, hs⟩
      exact ⟨r, hr, hs⟩
    · rintro ⟨r, hr, hs⟩
      exact List.mem_map.mpr ⟨r, hr, hs⟩
  · intro db2 h
    rw [h]

/-- Witness for C9: two distinct stations referenced by three rows yield
exactly two entries. -/
theorem stations_distinct_deterministic_witness :
    ("A" : String) ∈ stationList
      [⟨"A", "d1", none, none⟩, ⟨"B", "d2", none, none⟩, ⟨"A", "d3", none, none⟩] :=
  (stations_distinct_deterministic
    [⟨"A", "d1", none, none⟩, ⟨"B", "d2", none, none⟩, ⟨"A", "d3", none, none⟩]).2.1 "A"
    |>.mpr ⟨⟨"A", "d1", none, none⟩, by simp, rfl⟩

/-- C10 (implicit): each element of the stations and recent-observations
JSON lists is a one-element array wrapping the row's single column value —
the query rows are serialized without unpacking. -/
theorem rows_serialize_as_singleton_arrays (db : DB) :
    (∀ j ∈ jsonElems (stationsPayload db), ∃ s : String, j = Json.arr [Json.str s]) ∧
    (∀ pj, tobsPayload db = some pj →
      ∀ j ∈ jsonElems pj, ∃ t : Option ℚ, j = Json.arr [jsonOpt t]) := by
  constructor
  · intro j hj
    simp only [stationsPayload, jsonElems] at hj
    rcases List.mem_map.mp hj with ⟨s, _, hs⟩
    exact ⟨s, hs.symm⟩
  · intro pj hpj j hj
    unfold tobsPayload at hpj
    split at hpj
    · exact absurd hpj (by simp)
    · rename_i latest _
      have hpj' : pj = Json.arr ((tobsRows db (windowStartBound latest)).map
          (fun t => Json.arr [jsonOpt t])) := by
        injection hpj with h
        exact h.symm
      subst hpj'
      simp only [jsonElems] at hj
      rcases List.mem_map.mp hj with ⟨t, _, ht⟩
      exact ⟨t, ht.symm⟩

/-- Witness for C10 at a one-row dataset: the sole element of each payload is
a singleton array. -/
theorem rows_serialize_as_singleton_arrays_witness :
    ∃ s : String, Json.arr [Json.str "A"] = Json.arr [Json.str s] :=
  (rows_serialize_as_singleton_arrays [⟨"A", "2016-09-01", none, none⟩]).1
    (Json.arr [Json.str "A"]) (by simp [stationsPayload, stationList, dedupFirst, jsonElems])

/-- C1 counterexample: a dataset whose only row lies inside the range but
has a null `tobs` makes `calc_temps` return `Empty` (`[]`) even though an
observation satisfies the range predicate — refuting "Empty iff no
observation satisfies the range predicate". -/
theorem temp_aggregation_counterexample :
    calc_temps [⟨"S", "2010-01-05", none, none⟩] "2010-01-01" none = [] ∧
    fetchSince [⟨"S", "2010-01-05", none, none⟩] "2010-01-01" =
      [⟨"S", "2010-01-05", none, none⟩] ∧
    strLe "2010-01-01" "2010-01-05" = true := by
  refine ⟨by decide, by decide, by decide⟩

/-- C1 (amended): the aggregation returns `Empty` iff no observation in
range has a non-null `tobs`; otherwise it returns one stats row over the
non-null `tobs` values in range with `min ≤ avg ≤ max`, `avg` being their
arithmetic mean and `min`/`max` attained values. -/
theorem temp_aggregation_empty_iff_and_stats (db : DB) (s : String) (e : Option String) :
    (calc_temps db s e = [] ↔ tobsInRange db s e = []) ∧
    (tobsInRange db s e ≠ [] →
      ∃ m a x : ℚ,
        calc_temps db s e = [(some m, some a, some x)] ∧
        m ≤ a ∧ a ≤ x ∧
        a = (tobsInRange db s e).sum / (tobsInRange db s e).length ∧
        m ∈ tobsInRange db s e ∧ x ∈ tobsInRange db s e ∧
        (∀ v ∈ tobsInRange db s e, m ≤ v ∧ v ≤ x)) :=
  ⟨calc_temps_empty_iff db s e, calc_temps_stats db s e⟩

/-- Witness for C1 (amended) on a two-row dataset with temperatures 5 and 7. -/
theorem temp_aggregation_empty_iff_and_stats_witness :
    ∃ m a x : ℚ,
      calc_temps [⟨"S", "2010-01-05", some 5, none⟩, ⟨"S", "2010-01-06", some 7, none⟩]
          "2010-01-01" none = [(some m, some a, some x)] ∧
      m ≤ a ∧ a ≤ x ∧
      a = (tobsInRange [⟨"S", "2010-01-05", some 5, none⟩, ⟨"S", "2010-01-06", some 7, none⟩]
            "2010-01-01" none).sum /
          (tobsInRange [⟨"S", "2010-01-05", some 5, none⟩, ⟨"S", "2010-01-06", some 7, none⟩]
            "2010-01-01" none).length ∧
      m ∈ tobsInRange [⟨"S", "2010-01-05", some 5, none⟩, ⟨"S", "2010-01-06", some 7, none⟩]
            "2010-01-01" none ∧
      x ∈ tobsInRange [⟨"S", "2010-01-05", some 5, none⟩, ⟨"S", "2010-01-06", some 7, none⟩]
            "2010-01-01" none ∧
      (∀ v ∈ tobsInRange [⟨"S", "2010-01-05", some 5, none⟩, ⟨"S", "2010-01-06", some 7, none⟩]
            "2010-01-01" none, m ≤ v ∧ v ≤ x) :=
  (temp_aggregation_empty_iff_and_stats
    [⟨"S", "2010-01-05", some 5, none⟩, ⟨"S", "2010-01-06", some 7, none⟩]
    "2010-01-01" none).2 (by decide)

/-- C7 counterexample: on a one-row dataset the `/api/v1.0/<start>`
success payload is `[[5, 5, 5]]` — a one-element list wrapping the row
triple — which is not the flat list `[5, 5, 5]` the claim states. -/
theorem temp_payload_flat_counterexample :
    calc_temps_start [⟨"S", "2010-01-02", some 5, none⟩] "2010-01-01" =
      Response.json (Json.arr [Json.arr [Json.num 5, Json.num 5, Json.num 5]]) ∧
    Json.arr [Json.arr [Json.num 5, Json.num 5, Json.num 5]] ≠
      Json.arr [Json.num 5, Json.num 5, Json.num 5] := by
  constructor
  · have h1 : strLe "2010-01-01" "2010-01-02" = true := by decide
    have hfmt : matchesDateFormat "2010-01-01" = true := by decide
    have hres : calc_temps [⟨"S", "2010-01-02", some 5, none⟩] "2010-01-01" none
        = [(some 5, some 5, some 5)] := by
      simp [calc_temps, tobsInRange, sqlMin, sqlMax, sqlAvg, h1, List.filter, List.filterMap]
    simp [calc_temps_start, hfmt, hres, jsonifyTemps, jsonOpt]
  · simp

/-- C7 (amended): for a valid start (and end) with at least one matching
observation, both temperature endpoints return a JSON list containing exactly
one element, the `[min, avg, max]` row. -/
theorem temp_success_payload_wrapped (db : DB) (s f : String)
    (hs : matchesDateFormat s = true) (hf : matchesDateFormat f = true) :
    (calc_temps db s none ≠ [] →
      ∃ m a x : ℚ, calc_temps_start db s =
        Response.json (Json.arr [Json.arr [Json.num m, Json.num a, Json.num x]])) ∧
    (startEndResult db s f ≠ [] →
      ∃ m a x : ℚ, calc_temps_start_end db s f =
        Response.json (Json.arr [Json.arr [Json.num m, Json.num a, Json.num x]])) := by
  constructor
  · intro hne
    have hv : tobsInRange db s none ≠ [] :=
      fun h => hne ((calc_temps_empty_iff db s none).mpr h)
    obtain ⟨m, a, x, heq, -⟩ := calc_temps_stats db s none hv
    refine ⟨m, a, x, ?_⟩
    simp [calc_temps_start, hs, heq, jsonifyTemps, jsonOpt]
  · intro hne
    by_cases hlt : strLt f s = true
    · have hse : startEndResult db s f = calc_temps db f (some s) := by
        simp [startEndResult, hlt]
      rw [hse] at hne
      have hv : tobsInRange db f (some s) ≠ [] :=
        fun h => hne ((calc_temps_empty_iff db f (some s)).mpr h)
      obtain ⟨m, a, x, heq, -⟩ := calc_temps_stats db f (some s) hv
      refine ⟨m, a, x, ?_⟩
      simp [calc_temps_start_end, hs, hf, hse, heq, jsonifyTemps, jsonOpt]
    · have hse : startEndResult db s f = calc_temps db s (some f) := by
        simp [startEndResult, hlt]
      rw [hse] at hne
      have hv : tobsInRange db s (some f) ≠ [] :=
        fun h => hne ((calc_temps_empty_iff db s (some f)).mpr h)
      obtain ⟨m, a, x, heq, -⟩ := calc_temps_stats db s (some f) hv
      refine ⟨m, a, x, ?_⟩
      simp [calc_temps_start_end, hs, hf, hse, heq, jsonifyTemps, jsonOpt]

/-- Witness for C7 (amended) on a one-row dataset matched by both endpoints. -/
theorem temp_success_payload_wrapped_witness :
    (∃ m a x : ℚ, calc_temps_start [⟨"S", "2010-01-02", some 5, none⟩] "2010-01-01" =
      Response.json (Json.arr [Json.arr [Json.num m, Json.num a, Json.num x]])) ∧
    (∃ m a x : ℚ,
      calc_temps_start_end [⟨"S", "2010-01-02", some 5, none⟩] "2010-01-01" "2010-01-03" =
        Response.json (Json.arr [Json.arr [Json.num m, Json.num a, Json.num x]])) :=
  ⟨(temp_success_payload_wrapped [⟨"S", "2010-01-02", some 5, none⟩] "2010-01-01" "2010-01-03"
      (by decide) (by decide)).1 (by decide),
   (temp_success_payload_wrapped [⟨"S", "2010-01-02", some 5, none⟩] "2010-01-01" "2010-01-03"
      (by decide) (by decide)).2 (by decide)⟩


/-- C4 counterexample: on a two-date dataset the precipitation payload is
not a JSON object mapping date to precipitation — it is a one-entry object
whose sole key is the pandas column name `"Precipitation"`, so a fetched date
is not among its keys. -/
theorem precip_payload_counterexample :
    precipitation [⟨"A", "2017-01-01", none, some 1⟩, ⟨"A", "2017-01-02", none, some 2⟩] =
      some (Json.obj [("Precipitation",
        Json.obj [("2017-01-01", Json.num 1), ("2017-01-02", Json.num 2)])]) ∧
    jsonObjKeys (Json.obj [("Precipitation",
        Json.obj [("2017-01-01", Json.num 1), ("2017-01-02", Json.num 2)])]) =
      ["Precipitation"] ∧
    "2017-01-01" ∈ (datePrcpRows
      [⟨"A", "2017-01-01", none, some 1⟩, ⟨"A", "2017-01-02", none, some 2⟩]
      (windowStartBound "2017-01-02")).map Prod.fst ∧
    "2017-01-01" ∉ (["Precipitation"] : List String) := by
  refine ⟨rfl, rfl, by decide, by decide⟩

/-- C4 (amended): the precipitation payload is a single-entry JSON object
keyed `"Precipitation"`; its value, built from any ascending reordering of
the fetched `(date, prcp)` rows (`sort_values`' default quicksort fixes no
tie order), has strictly ascending keys, exactly one entry per distinct
fetched date, and maps each date to the `prcp` of one of the fetched rows
bearing that date. The executable `sortRows` pipeline is one such
reordering. -/
theorem precip_series_properties (db : DB) (since : String)
    (sorted : List (String × Option ℚ))
    (hperm : sorted.Perm (datePrcpRows db since))
    (hsorted : List.Pairwise (fun u v => strLe u.1 v.1 = true) sorted) :
    List.Pairwise (fun a b => strLt a b = true) ((dictOf sorted).map Prod.fst) ∧
    ((dictOf sorted).map Prod.fst).Nodup ∧
    (∀ k : String, k ∈ (dictOf sorted).map Prod.fst ↔
      k ∈ (datePrcpRows db since).map Prod.fst) ∧
    (∀ (k : String) (v : Option ℚ), lookupKey k (dictOf sorted) = some v →
      (k, v) ∈ datePrcpRows db since) ∧
    ((sortRows (datePrcpRows db since)).Perm (datePrcpRows db since) ∧
      List.Pairwise (fun u v => strLe u.1 v.1 = true) (sortRows (datePrcpRows db since)) ∧
      prcpDict db since = dictOf (sortRows (datePrcpRows db since))) ∧
    (∀ latest, maxDateStr db = some latest →
      precipitation db = some (Json.obj [("Precipitation",
        Json.obj ((prcpDict db (windowStartBound latest)).map
          (fun p => (p.1, jsonOpt p.2))))])) := by
  have hnodup : ((dictOf sorted).map Prod.fst).Nodup :=
    nodup_keys_dictFold _ [] (by simp)
  have hsub : List.Sublist ((dictOf sorted).map Prod.fst) (sorted.map Prod.fst) := by
    have h := keys_dictFold_sub sorted []
    simpa using h
  have hlek : List.Pairwise (fun a b => strLe a b = true) (sorted.map Prod.fst) := by
    rw [List.pairwise_map]
    exact hsorted
  refine ⟨?_, hnodup, ?_, ?_, ⟨sortRows_perm _, sortRows_pairwise _, rfl⟩, ?_⟩
  · have hlekeys := hlek.sublist hsub
    have hne : List.Pairwise (fun a b : String => a ≠ b) ((dictOf sorted).map Prod.fst) :=
      hnodup
    refine (hlekeys.and hne).imp ?_
    intro a b hab
    exact strLt_of_le_ne a b hab.1 hab.2
  · intro k
    have h := mem_keys_dictFold k sorted []
    rw [dictOf, h]
    simp only [List.map_nil, List.not_mem_nil, false_or]
    exact (hperm.map Prod.fst).mem_iff
  · intro k v hkv
    have h := lookup_dictFold sorted [] k
    rw [dictOf, h] at hkv
    cases hfl : (sorted.filter (fun q => q.1 = k)).getLast? with
    | none =>
      rw [hfl] at hkv
      simp [lookupKey] at hkv
    | some p =>
      rw [hfl] at hkv
      obtain ⟨p1, p2⟩ := p
      have hpv : p2 = v := by
        simpa using hkv
      have hpmem : (p1, p2) ∈ sorted.filter (fun q => q.1 = k) := mem_of_getLast? hfl
      rcases List.mem_filter.mp hpmem with ⟨hps, hpk⟩
      have hk : p1 = k := by simpa using hpk
      rw [← hk, ← hpv]
      exact hperm.subset hps
  · intro latest hlatest
    rw [precipitation, hlatest]

/-- Witness for C4 (amended) on a dataset where two stations report the same
date: the surviving value for that date is one of its fetched rows' values,
and the payload has the single-key wrapper shape. -/
theorem precip_series_properties_witness :
    ("2017-08-01", (some 2 : Option ℚ)) ∈
      datePrcpRows [⟨"A", "2017-08-01", none, some 1⟩, ⟨"B", "2017-08-01", none, some 2⟩,
        ⟨"S", "2017-08-23", none, some 0⟩] (windowStartBound "2017-08-23") ∧
    precipitation [⟨"A", "2017-08-01", none, some 1⟩, ⟨"B", "2017-08-01", none, some 2⟩,
        ⟨"S", "2017-08-23", none, some 0⟩] =
      some (Json.obj [("Precipitation",
        Json.obj ((prcpDict [⟨"A", "2017-08-01", none, some 1⟩,
            ⟨"B", "2017-08-01", none, some 2⟩, ⟨"S", "2017-08-23", none, some 0⟩]
          (windowStartBound "2017-08-23")).map (fun p => (p.1, jsonOpt p.2))))]) :=
  ⟨(precip_series_properties
      [⟨"A", "2017-08-01", none, some 1⟩, ⟨"B", "2017-08-01", none, some 2⟩,
        ⟨"S", "2017-08-23", none, some 0⟩]
      (windowStartBound "2017-08-23")
      (sortRows (datePrcpRows
        [⟨"A", "2017-08-01", none, some 1⟩, ⟨"B", "2017-08-01", none, some 2⟩,
          ⟨"S", "2017-08-23", none, some 0⟩] (windowStartBound "2017-08-23")))
      (sortRows_perm _) (sortRows_pairwise _)).2.2.2.1 "2017-08-01" (some 2) (by decide),
   (precip_series_properties
      [⟨"A", "2017-08-01", none, some 1⟩, ⟨"B", "2017-08-01", none, some 2⟩,
        ⟨"S", "2017-08-23", none, some 0⟩]
      (windowStartBound "2017-08-23")
      (sortRows (datePrcpRows
        [⟨"A", "2017-08-01", none, some 1⟩, ⟨"B", "2017-08-01", none, some 2⟩,
          ⟨"S", "2017-08-23", none, some 0⟩] (windowStartBound "2017-08-23")))
      (sortRows_perm _) (sortRows_pairwise _)).2.2.2.2.2 "2017-08-23" (by decide)⟩

end ClimateApp
